import Mathlib

/-!
Verification of the `walrus` replicated write-ahead log.

This file gives a shallow embedding of the storage engine
(`src/log/store.rs`, `src/log/index.rs`, `src/log/segment.rs`,
`src/log/log.rs`) and of the cluster protocol
(`src/cluster/election.rs`, `src/cluster/replication.rs`,
`src/cluster/state.rs`, `src/server/service.rs`), followed by theorems
about the embedded operations.

Conventions of the embedding:
* Rust `u64`/`u32`/`usize` values are modelled as `Nat`; a truncating
  cast such as `x as u32` is modelled as `x % 2^32`.  Arithmetic whose
  overflow behaviour matters to a theorem carries an explicit bound
  hypothesis.
* Fallible Rust functions (`Result`) are modelled with `Option`
  (`none` = `Err` or panic), paired with the post-state where the
  Rust code mutates state in place.
* Files and memory maps are byte lists (`List Nat`, each element < 256
  at the points where it matters).
-/

namespace Walrus

/-! ### Byte-level helpers (byteorder big-endian encodings) -/

/-- Big-endian `u64` encoding, as written by `BigEndian::write_u64`
in `src/log/store.rs` and `to_be_bytes` in `src/log/index.rs`. -/
def u64BE (n : Nat) : List Nat :=
  [n / 2 ^ 56 % 256, n / 2 ^ 48 % 256, n / 2 ^ 40 % 256, n / 2 ^ 32 % 256,
   n / 2 ^ 24 % 256, n / 2 ^ 16 % 256, n / 2 ^ 8 % 256, n % 256]

/-- Big-endian `u32` encoding (`u32::to_be_bytes` in `src/log/index.rs`). -/
def u32BE (n : Nat) : List Nat :=
  [n / 2 ^ 24 % 256, n / 2 ^ 16 % 256, n / 2 ^ 8 % 256, n % 256]

/-- Big-endian decoding (`u64::from_be_bytes` / `u32::from_be_bytes`). -/
def beToNat (bs : List Nat) : Nat :=
  bs.foldl (fun acc b => acc * 256 + b) 0

/-- `listSlice l pos n` is the sublist of `l` of length (at most) `n`
starting at byte position `pos`; used to model reads from a file or a
memory map. -/
def listSlice (l : List Nat) (pos n : Nat) : List Nat :=
  (l.drop pos).take n

/-- `writeAt l pos bs` overwrites `l` at byte position `pos` with `bs`;
used to model writes into the index memory map. -/
def writeAt (l : List Nat) (pos : Nat) (bs : List Nat) : List Nat :=
  l.take pos ++ bs ++ l.drop (pos + bs.length)

theorem u64BE_length (n : Nat) : (u64BE n).length = 8 := rfl

theorem u32BE_length (n : Nat) : (u32BE n).length = 4 := rfl

theorem beToNat_u64BE (n : Nat) : beToNat (u64BE n) = n % 2 ^ 64 := by
  simp only [beToNat, u64BE, List.foldl]
  omega

theorem beToNat_u32BE (n : Nat) : beToNat (u32BE n) = n % 2 ^ 32 := by
  simp only [beToNat, u32BE, List.foldl]
  omega

theorem listSlice_append (pre xs : List Nat) (m n : Nat)
    (h : pre.length = m) : listSlice (pre ++ xs) m n = xs.take n := by
  subst h
  simp [listSlice, List.drop_left]

theorem listSlice_append_full (pre xs rest : List Nat) (m : Nat)
    (h : pre.length = m) : listSlice (pre ++ (xs ++ rest)) m xs.length = xs := by
  rw [listSlice_append pre (xs ++ rest) m xs.length h, List.take_left]

theorem writeAt_length (l bs : List Nat) (pos : Nat)
    (h : pos + bs.length ≤ l.length) : (writeAt l pos bs).length = l.length := by
  simp [writeAt]
  omega

theorem writeAt_slice (l bs : List Nat) (pos : Nat) (h : pos ≤ l.length) :
    listSlice (writeAt l pos bs) pos bs.length = bs := by
  have hlen : (l.take pos).length = pos := by
    simp [List.length_take]
    omega
  calc listSlice (writeAt l pos bs) pos bs.length
      = listSlice (l.take pos ++ (bs ++ l.drop (pos + bs.length))) pos bs.length := by
        simp [writeAt]
    _ = bs := listSlice_append_full _ _ _ _ hlen

/-! ### Store (`src/log/store.rs`)

A `Store` is one file holding `[u64-BE length][payload]` frames.  The
Rust struct wraps the file in a `BufWriter` built by `BufWriter::new`,
whose capacity is the std default of 8 KiB; we model its user-space
buffer as `buf` (bytes written but not yet flushed to the OS) and the
bytes the OS file holds as `file`.  `syncCount` counts
`file.sync_all()` calls so that theorems can observe the fsync policy.
`size` mirrors the manually tracked `size` field. -/

structure Store where
  file : List Nat
  buf : List Nat
  size : Nat
  syncCount : Nat
deriving Repr

/-- `store::new` on a freshly created (empty) file: `size` is the file
metadata length, 0. -/
def Store.emptyStore : Store := ⟨[], [], 0, 0⟩

/-- `BUFFER_CAPACITY` in `src/log/store.rs` (64 KiB). -/
def BUFFER_CAPACITY : Nat := 64 * 1024

/-- The capacity of the `BufWriter` created by `BufWriter::new` in
`store::new` (`src/log/store.rs:33`): the std default of 8 KiB. -/
def DEFAULT_BUF_CAPACITY : Nat := 8 * 1024

/-- `BufWriter::write_all` (std semantics): if the incoming bytes would
overflow the capacity, first flush the buffer to the OS file; then
write them directly to the file if they are at least the capacity
(which implies the buffer is empty at that point), otherwise into the
buffer.  No step calls `sync_all`. -/
def Store.bufWrite (s : Store) (data : List Nat) : Store :=
  let s1 := if DEFAULT_BUF_CAPACITY < s.buf.length + data.length
    then { s with file := s.file ++ s.buf, buf := [] }
    else s
  if DEFAULT_BUF_CAPACITY ≤ data.length
    then { s1 with file := s1.file ++ data }
    else { s1 with buf := s1.buf ++ data }

/-- `Store::append`: record `pos := size`; `write_all` the 8-byte
big-endian length, then `write_all` the payload, through the 8 KiB
`BufWriter`; advance `size` by `len + 8`; then, if the buffer's length
has reached `BUFFER_CAPACITY`, flush it to the OS and `sync_all` the
file.  Returns `((written, pos), store')`. -/
def Store.append (s : Store) (p : List Nat) : (Nat × Nat) × Store :=
  let pos := s.size
  let s1 := (s.bufWrite (u64BE p.length)).bufWrite p
  let written := p.length + 8
  let s2 := { s1 with size := s.size + written }
  if BUFFER_CAPACITY ≤ s2.buf.length then
    ((written, pos),
     { s2 with file := s2.file ++ s2.buf, buf := [], syncCount := s2.syncCount + 1 })
  else
    ((written, pos), s2)

/-- The bytes a reader can observe: the flushed file followed by the
user-space buffer (every read path flushes the buffer first). -/
def Store.contents (s : Store) : List Nat := s.file ++ s.buf

/-- `Store::read`: flush the buffer, read the 8-byte length prefix at
`pos`, then read exactly that many bytes.  `read_exact` past the end of
the file fails with `UnexpectedEof` (`none`). -/
def Store.read (s : Store) (pos : Nat) : Option (List Nat) × Store :=
  let f := s.contents
  let s1 : Store := { s with file := f, buf := [] }
  if f.length < pos + 8 then (none, s1)
  else
    let len := beToNat (listSlice f pos 8)
    if f.length < pos + 8 + len then (none, s1)
    else (some (listSlice f (pos + 8) len), s1)

/-- `Store::close`: flush the buffer; no `sync_all`. -/
def Store.close (s : Store) : Store := { s with file := s.contents, buf := [] }

/-- The `size` field agrees with the bytes actually written. -/
def StoreInv (s : Store) : Prop := s.size = s.file.length + s.buf.length

theorem bufWrite_contents (s : Store) (data : List Nat) :
    (s.bufWrite data).contents = s.contents ++ data := by
  unfold Store.bufWrite
  by_cases h1 : DEFAULT_BUF_CAPACITY < s.buf.length + data.length
  · rw [if_pos h1]
    by_cases h2 : DEFAULT_BUF_CAPACITY ≤ data.length
    · rw [if_pos h2]
      simp [Store.contents]
    · rw [if_neg h2]
      simp [Store.contents]
  · rw [if_neg h1]
    by_cases h2 : DEFAULT_BUF_CAPACITY ≤ data.length
    · rw [if_pos h2]
      have hb : s.buf = [] := List.length_eq_zero.mp (by omega)
      simp [Store.contents, hb]
    · rw [if_neg h2]
      simp [Store.contents]

theorem bufWrite_sync (s : Store) (data : List Nat) :
    (s.bufWrite data).syncCount = s.syncCount := by
  unfold Store.bufWrite
  by_cases h1 : DEFAULT_BUF_CAPACITY < s.buf.length + data.length <;>
    by_cases h2 : DEFAULT_BUF_CAPACITY ≤ data.length <;>
      simp [h1, h2]

/-- After any `write_all` the buffer holds at most the 8 KiB capacity
(the invariant `BufWriter` maintains). -/
theorem bufWrite_buf_le (s : Store) (data : List Nat)
    (h : s.buf.length ≤ DEFAULT_BUF_CAPACITY) :
    (s.bufWrite data).buf.length ≤ DEFAULT_BUF_CAPACITY := by
  unfold Store.bufWrite
  by_cases h1 : DEFAULT_BUF_CAPACITY < s.buf.length + data.length
  · rw [if_pos h1]
    by_cases h2 : DEFAULT_BUF_CAPACITY ≤ data.length
    · rw [if_pos h2]
      simp
    · rw [if_neg h2]
      simp
      omega
  · rw [if_neg h1]
    by_cases h2 : DEFAULT_BUF_CAPACITY ≤ data.length
    · rw [if_pos h2]
      simpa using h
    · rw [if_neg h2]
      simp
      omega

theorem store_append_pos (s : Store) (p : List Nat) :
    (s.append p).1 = (p.length + 8, s.size) := by
  simp only [Store.append]
  split <;> rfl

theorem store_append_contents (s : Store) (p : List Nat) :
    (s.append p).2.contents = s.contents ++ u64BE p.length ++ p := by
  have h1 : ((s.bufWrite (u64BE p.length)).bufWrite p).contents
      = s.contents ++ u64BE p.length ++ p := by
    rw [bufWrite_contents, bufWrite_contents]
  simp only [Store.append]
  split
  · simpa [Store.contents] using h1
  · simpa [Store.contents] using h1

theorem store_append_size (s : Store) (p : List Nat) :
    (s.append p).2.size = s.size + p.length + 8 := by
  simp only [Store.append]
  split <;> simp <;> omega

theorem store_append_inv (s : Store) (p : List Nat) (h : StoreInv s) :
    StoreInv (s.append p).2 := by
  unfold StoreInv at *
  have h3 : (s.append p).2.file.length + (s.append p).2.buf.length
      = (s.append p).2.contents.length := by
    simp [Store.contents]
  rw [store_append_size, h3, store_append_contents]
  simp [Store.contents, u64BE_length]
  omega

/-- Reading back the frame just appended: with `size` consistent and the
payload shorter than `2^64` bytes, `read` at the returned position
yields the payload. -/
theorem store_read_appended (s : Store) (p : List Nat)
    (hinv : StoreInv s) (hlen : p.length < 2 ^ 64) :
    ((s.append p).2.read s.size).1 = some p := by
  have hc := store_append_contents s p
  have hcl : s.contents.length = s.size := by
    simp [Store.contents, StoreInv] at *
    omega
  unfold Store.read
  rw [hc]
  have hslice1 : listSlice (s.contents ++ u64BE p.length ++ p) s.size 8 = u64BE p.length := by
    have : s.contents ++ u64BE p.length ++ p = s.contents ++ (u64BE p.length ++ p) := by
      simp
    rw [this]
    have := listSlice_append_full s.contents (u64BE p.length) p s.size hcl
    simpa [u64BE_length] using this
  have hslice2 : listSlice (s.contents ++ u64BE p.length ++ p) (s.size + 8) p.length = p := by
    have : s.contents ++ u64BE p.length ++ p = (s.contents ++ u64BE p.length) ++ (p ++ []) := by
      simp
    rw [this]
    have hl : (s.contents ++ u64BE p.length).length = s.size + 8 := by
      simp [u64BE_length, hcl]
    have := listSlice_append_full (s.contents ++ u64BE p.length) p [] (s.size + 8) hl
    simpa using this
  have htot : (s.contents ++ u64BE p.length ++ p).length = s.size + 8 + p.length := by
    simp [u64BE_length, hcl]
    omega
  rw [if_neg (by omega)]
  simp only [hslice1, beToNat_u64BE, Nat.mod_eq_of_lt hlen]
  rw [if_neg (by omega)]
  rw [hslice2]

/-! ### Index (`src/log/index.rs`)

Fixed-width 12-byte entries `[u32-BE rel_off][u64-BE store_pos]` over a
memory map.  The backing file is pre-sized to `max_index_bytes`, so the
map (`mmap`) has that length; the logical size is tracked in `size`. -/

/-- `OFF_WIDTH + POS_WIDTH` in `src/log/index.rs`. -/
def ENT_WIDTH : Nat := 12

structure Index where
  mmap : List Nat
  size : Nat
deriving Repr

/-- `index::new` on a freshly created (empty) file: the file is grown to
`max_index_bytes` and mapped; the scan for the logical size sees
`file_size = 0` and leaves `size = 0`. -/
def Index.emptyIndex (maxIndexBytes : Nat) : Index :=
  ⟨List.replicate maxIndexBytes 0, 0⟩

/-- `Index::write`: append a `(rel_off, store_pos)` entry at byte offset
`size`; fails with `UnexpectedEof` (`none`) when the pre-sized map is
exhausted. -/
def Index.write (ix : Index) (off pos : Nat) : Option Index :=
  if ix.mmap.length < ix.size + ENT_WIDTH then none
  else some { mmap := writeAt ix.mmap ix.size (u32BE off ++ u64BE pos),
              size := ix.size + ENT_WIDTH }

/-- `Index::read`: `read (-1)` returns the last entry
(`(size as u32 / ENT_WIDTH as u32).saturating_sub(1)`); `read k` for
`k ≥ 0` returns entry `k` (the `i64 → u32` cast truncates mod `2^32`).
Fails (`none`) when the index is empty or the entry lies past `size`. -/
def Index.read (ix : Index) (offset : Int) : Option (Nat × Nat) :=
  if ix.size = 0 then none
  else
    let entry : Option Nat :=
      if offset = -1 then some (ix.size % 2 ^ 32 / ENT_WIDTH - 1)
      else if offset < 0 then none
      else some (offset.toNat % 2 ^ 32)
    match entry with
    | none => none
    | some i =>
      let position := i * ENT_WIDTH
      if ix.size < position + ENT_WIDTH then none
      else some (beToNat (listSlice ix.mmap position 4),
                 beToNat (listSlice ix.mmap (position + 4) 8))

theorem index_write_some (ix : Index) (off pos : Nat) (ix' : Index)
    (h : ix.write off pos = some ix') :
    ix.size + ENT_WIDTH ≤ ix.mmap.length ∧
    ix'.size = ix.size + ENT_WIDTH ∧
    ix'.mmap.length = ix.mmap.length ∧
    listSlice ix'.mmap ix.size 4 = u32BE off ∧
    listSlice ix'.mmap (ix.size + 4) 8 = u64BE pos := by
  have hE : ENT_WIDTH = 12 := rfl
  unfold Index.write at h
  by_cases hc : ix.mmap.length < ix.size + ENT_WIDTH
  · rw [if_pos hc] at h
    exact absurd h (by simp)
  · rw [if_neg hc] at h
    have hle : ix.size + ENT_WIDTH ≤ ix.mmap.length := Nat.le_of_not_lt hc
    have hix' : ix' = { mmap := writeAt ix.mmap ix.size (u32BE off ++ u64BE pos),
                        size := ix.size + ENT_WIDTH } := by
      cases h
      rfl
    subst hix'
    have hw := writeAt_slice ix.mmap (u32BE off ++ u64BE pos) ix.size (by omega)
    have hsl : List.take 12 (List.drop ix.size (writeAt ix.mmap ix.size (u32BE off ++ u64BE pos)))
        = u32BE off ++ u64BE pos := by
      simpa [listSlice, u32BE_length, u64BE_length] using hw
    refine ⟨hle, rfl, ?_, ?_, ?_⟩
    · exact writeAt_length _ _ _ (by simp [u32BE_length, u64BE_length]; omega)
    · show listSlice (writeAt ix.mmap ix.size (u32BE off ++ u64BE pos)) ix.size 4 = u32BE off
      have h4 : listSlice (writeAt ix.mmap ix.size (u32BE off ++ u64BE pos)) ix.size 4
          = (List.take 12 (List.drop ix.size
              (writeAt ix.mmap ix.size (u32BE off ++ u64BE pos)))).take 4 := by
        simp [listSlice, List.take_take]
      rw [h4, hsl]
      rfl
    · show listSlice (writeAt ix.mmap ix.size (u32BE off ++ u64BE pos)) (ix.size + 4) 8
        = u64BE pos
      unfold listSlice
      calc List.take 8 (List.drop (ix.size + 4) (writeAt ix.mmap ix.size (u32BE off ++ u64BE pos)))
          = List.take 8 (List.drop 4 (List.drop ix.size
              (writeAt ix.mmap ix.size (u32BE off ++ u64BE pos)))) := by
            rw [List.drop_drop]
        _ = List.take (12 - 4) (List.drop 4 (List.drop ix.size
              (writeAt ix.mmap ix.size (u32BE off ++ u64BE pos)))) := rfl
        _ = List.drop 4 (List.take 12 (List.drop ix.size
              (writeAt ix.mmap ix.size (u32BE off ++ u64BE pos)))) := by
            rw [List.drop_take]
        _ = List.drop 4 (u32BE off ++ u64BE pos) := by rw [hsl]
        _ = u64BE pos := rfl

/-! ### Record serialization

The `Record` type is generated by `prost` from `src/api/v1/log.proto`
(the proto file itself is not among the sources; only the generated
type's two fields `value: Vec<u8>` and `offset: u64` are visible at the
use sites in `src/log/segment.rs`). -/

structure Record where
  value : List Nat
  offset : Nat
deriving Repr, DecidableEq

/-- Modelled from the spec: `src/api/v1/log.proto` is missing from the
sources, so the prost `Record::encode_to_vec` serialization is modelled
after spec §6: "use a stable length-delimited schema over the fields
`value: bytes` and `offset: u64` (any wire-compatible schema is
acceptable)".  We use `[u64-BE value-length][value][u64-BE offset]`. -/
def encodeRecord (r : Record) : List Nat :=
  u64BE r.value.length ++ r.value ++ u64BE r.offset

/-- Modelled from the spec: inverse of `encodeRecord` (prost
`Record::decode`). -/
def decodeRecord (bs : List Nat) : Option Record :=
  if bs.length < 8 then none
  else
    let len := beToNat (listSlice bs 0 8)
    if bs.length < 8 + len + 8 then none
    else some ⟨listSlice bs 8 len, beToNat (listSlice bs (8 + len) 8)⟩

theorem encodeRecord_length (r : Record) :
    (encodeRecord r).length = r.value.length + 16 := by
  simp [encodeRecord, u64BE_length]
  omega

theorem decode_encodeRecord (r : Record) (h : r.value.length < 2 ^ 64) :
    decodeRecord (encodeRecord r) = some ⟨r.value, r.offset % 2 ^ 64⟩ := by
  have hlen := encodeRecord_length r
  unfold decodeRecord
  rw [if_neg (by omega)]
  have h0 : listSlice (encodeRecord r) 0 8 = u64BE r.value.length := by
    unfold encodeRecord
    have : u64BE r.value.length ++ r.value ++ u64BE r.offset
        = u64BE r.value.length ++ (r.value ++ u64BE r.offset) := by simp
    rw [this]
    simpa [u64BE_length] using
      listSlice_append_full ([] : List Nat) (u64BE r.value.length) (r.value ++ u64BE r.offset) 0 rfl
  simp only [h0, beToNat_u64BE, Nat.mod_eq_of_lt h]
  rw [if_neg (by omega)]
  have h1 : listSlice (encodeRecord r) 8 r.value.length = r.value := by
    unfold encodeRecord
    have : u64BE r.value.length ++ r.value ++ u64BE r.offset
        = u64BE r.value.length ++ (r.value ++ u64BE r.offset) := by simp
    rw [this]
    exact listSlice_append_full (u64BE r.value.length) r.value (u64BE r.offset) 8 (u64BE_length _)
  have h2 : listSlice (encodeRecord r) (8 + r.value.length) 8 = u64BE r.offset := by
    unfold encodeRecord
    have hpre : (u64BE r.value.length ++ r.value).length = 8 + r.value.length := by
      simp [u64BE_length]
    have := listSlice_append_full (u64BE r.value.length ++ r.value) (u64BE r.offset) []
      (8 + r.value.length) hpre
    simpa [u64BE_length] using this
  rw [h1, h2, beToNat_u64BE]

/-! ### Config (`src/log/config.rs`) -/

structure InitSegment where
  max_store_bytes : Nat
  max_index_bytes : Nat
  initial_offset : Nat
deriving Repr, DecidableEq

structure Config where
  segment : InitSegment
deriving Repr, DecidableEq

/-! ### Segment (`src/log/segment.rs`)

A `Segment` pairs one `Store` and one `Index` with a base offset.
`segment::new` opens (or creates) `<dir>/<base>.store` and
`<dir>/<base>.index`; `newSegment` below is `segment::new` on freshly
created (empty) files — the case exercised by `Log::new` on an empty
directory and by every rotation: the index is empty, `index.read(-1)`
fails, and `next_offset = base_offset`. -/

structure Segment where
  store : Store
  index : Index
  base_offset : Nat
  next_offset : Nat
  config : Config
deriving Repr

def newSegment (base_off : Nat) (conf : Config) : Segment :=
  { store := Store.emptyStore,
    index := Index.emptyIndex conf.segment.max_index_bytes,
    base_offset := base_off,
    next_offset := base_off,
    config := conf }

/-- `Segment::append`: set the record's offset to `next_offset`,
serialize it into the store, write `(next_offset − base_offset, position)`
into the index (the `u64 → u32` cast truncates mod `2^32`), increment
`next_offset`, and return the assigned offset.  When the index is full
the error propagates, with the store already mutated. -/
def Segment.append (seg : Segment) (r : Record) : Option Nat × Segment :=
  let current := seg.next_offset
  let r1 : Record := { r with offset := current }
  let bytes := encodeRecord r1
  let res := seg.store.append bytes
  let position := res.1.2
  let store1 := res.2
  let relative := (seg.next_offset - seg.base_offset) % 2 ^ 32
  match seg.index.write relative position with
  | none => (none, { seg with store := store1 })
  | some ix1 =>
    (some r1.offset,
     { seg with store := store1, index := ix1, next_offset := seg.next_offset + 1 })

/-- `Segment::read`: reject offsets outside `[base_offset, next_offset)`,
look up the store position in the index, read the frame from the store
and decode it.  The store's buffer flush performed by `Store::read` does
not change `Store.contents`, so the read is modelled as pure. -/
def Segment.read (seg : Segment) (offset : Nat) : Option Record :=
  if offset < seg.base_offset ∨ seg.next_offset ≤ offset then none
  else
    match seg.index.read ((offset - seg.base_offset : Nat) : Int) with
    | none => none
    | some pr =>
      match (seg.store.read pr.2).1 with
      | none => none
      | some bytes => decodeRecord bytes

/-- `Segment::is_maxed`: `store.size >= max_store_bytes ||
index.size >= max_index_bytes`. -/
def Segment.is_maxed (seg : Segment) : Bool :=
  seg.config.segment.max_store_bytes ≤ seg.store.size ||
  seg.config.segment.max_index_bytes ≤ seg.index.size

/-! ### Log (`src/log/log.rs`) -/

structure Log where
  config : Config
  active_segment : Option Segment
  segments : List Segment
deriving Repr

/-- The defaulting performed at the top of `new_log`: zero
`max_store_bytes` / `max_index_bytes` become 1024. -/
def applyDefaults (c : Config) : Config :=
  let msb := if c.segment.max_store_bytes = 0 then 1024 else c.segment.max_store_bytes
  let mib := if c.segment.max_index_bytes = 0 then 1024 else c.segment.max_index_bytes
  { segment := { c.segment with max_store_bytes := msb, max_index_bytes := mib } }

/-- `new_log` (hence `Log::new`) on a directory containing no segment
files: `setup_log` finds no `<n>.store` entries, so no segments are
loaded and `segments.pop()` leaves `active_segment = None`. -/
def newLogEmptyDir (c : Config) : Log :=
  { config := applyDefaults c, active_segment := none, segments := [] }

/-- `Log::new_segment`: capture `base` from the active segment's
`next_offset` (or `initial_offset` if none), move the active segment
into `segments`, and install a fresh active segment at `base`. -/
def Log.new_segment (log : Log) : Log :=
  let base := match log.active_segment with
    | some seg => seg.next_offset
    | none => log.config.segment.initial_offset
  let segments := match log.active_segment with
    | some seg => log.segments ++ [seg]
    | none => log.segments
  { log with segments := segments, active_segment := some (newSegment base log.config) }

/-- `Log::append`: rotate if there is no active segment or it is maxed,
then delegate to the active segment's `append`. -/
def Log.append (log : Log) (r : Record) : Option Nat × Log :=
  let needNew := match log.active_segment with
    | none => true
    | some seg => seg.is_maxed
  let log1 := if needNew then log.new_segment else log
  match log1.active_segment with
  | some seg =>
    let res := seg.append r
    (res.1, { log1 with active_segment := some res.2 })
  | none => (none, log1)

/-- `Log::read`: scan `segments` for the first segment whose
`[base_offset, next_offset)` range contains the offset; otherwise check
the active segment; otherwise fail. -/
def Log.read (log : Log) (offset : Nat) : Option Record :=
  match log.segments.find?
      (fun seg => decide (seg.base_offset ≤ offset ∧ offset < seg.next_offset)) with
  | some seg => seg.read offset
  | none =>
    match log.active_segment with
    | some seg =>
      if seg.base_offset ≤ offset ∧ offset < seg.next_offset then seg.read offset
      else none
    | none => none

/-- The offset the next successful `Log.append` will assign: the active
segment's `next_offset`, or `initial_offset` when a first segment has
yet to be created.  (Rotation preserves it: the new segment's base is
the old active segment's `next_offset`.) -/
def logNext (log : Log) : Nat :=
  match log.active_segment with
  | some seg => seg.next_offset
  | none => log.config.segment.initial_offset

/-- `Segment.append` with its `let`-bindings expanded. -/
theorem segment_append_view (seg : Segment) (r : Record) :
    Segment.append seg r =
      match seg.index.write ((seg.next_offset - seg.base_offset) % 2 ^ 32)
          ((seg.store.append (encodeRecord { r with offset := seg.next_offset })).1.2) with
      | none =>
        (none, { seg with
          store := (seg.store.append (encodeRecord { r with offset := seg.next_offset })).2 })
      | some ix1 =>
        (some seg.next_offset, { seg with
          store := (seg.store.append (encodeRecord { r with offset := seg.next_offset })).2,
          index := ix1,
          next_offset := seg.next_offset + 1 }) := rfl

theorem segment_append_some (seg : Segment) (r : Record) (o : Nat) (seg' : Segment)
    (h : seg.append r = (some o, seg')) :
    ∃ ix1, seg.index.write ((seg.next_offset - seg.base_offset) % 2 ^ 32)
        ((seg.store.append (encodeRecord { r with offset := seg.next_offset })).1.2) = some ix1 ∧
      o = seg.next_offset ∧
      seg' = { seg with
        store := (seg.store.append (encodeRecord { r with offset := seg.next_offset })).2,
        index := ix1,
        next_offset := seg.next_offset + 1 } := by
  rw [segment_append_view] at h
  rcases hw : seg.index.write ((seg.next_offset - seg.base_offset) % 2 ^ 32)
      ((seg.store.append (encodeRecord { r with offset := seg.next_offset })).1.2) with _ | ix1
  · rw [hw] at h
    simp at h
  · rw [hw] at h
    injection h with h1 h2
    injection h1 with h1
    exact ⟨ix1, hw.symm.trans hw, h1.symm, h2.symm⟩

theorem segment_append_none (seg : Segment) (r : Record) (seg' : Segment)
    (h : seg.append r = (none, seg')) :
    seg' = { seg with
      store := (seg.store.append (encodeRecord { r with offset := seg.next_offset })).2 } := by
  rw [segment_append_view] at h
  rcases hw : seg.index.write ((seg.next_offset - seg.base_offset) % 2 ^ 32)
      ((seg.store.append (encodeRecord { r with offset := seg.next_offset })).1.2) with _ | ix1
  · rw [hw] at h
    injection h with h1 h2
    exact h2.symm
  · rw [hw] at h
    simp at h

/-- `Log.append` when there is no active segment: rotate to a fresh
segment at `initial_offset` and append there. -/
theorem log_append_none_view (cfg : Config) (segs : List Segment) (r : Record) :
    Log.append ⟨cfg, none, segs⟩ r =
      (((newSegment cfg.segment.initial_offset cfg).append r).1,
       ⟨cfg, some ((newSegment cfg.segment.initial_offset cfg).append r).2, segs⟩) := rfl

/-- `Log.append` when the active segment is not maxed: append in place. -/
theorem log_append_live_view (cfg : Config) (segs : List Segment) (seg : Segment) (r : Record)
    (hmax : seg.is_maxed = false) :
    Log.append ⟨cfg, some seg, segs⟩ r =
      ((seg.append r).1, ⟨cfg, some (seg.append r).2, segs⟩) := by
  simp only [Log.append, hmax]
  rfl

/-- `Log.append` when the active segment is maxed: rotate to a fresh
segment based at the old `next_offset` and append there. -/
theorem log_append_maxed_view (cfg : Config) (segs : List Segment) (seg : Segment) (r : Record)
    (hmax : seg.is_maxed = true) :
    Log.append ⟨cfg, some seg, segs⟩ r =
      (((newSegment seg.next_offset cfg).append r).1,
       ⟨cfg, some ((newSegment seg.next_offset cfg).append r).2, segs ++ [seg]⟩) := by
  simp only [Log.append, Log.new_segment, hmax]
  rfl

/-- A successful `Log.append` returns exactly `logNext` and advances it
by one. -/
theorem log_append_offset (log : Log) (r : Record) (o : Nat)
    (h : (Log.append log r).1 = some o) :
    o = logNext log ∧ logNext (Log.append log r).2 = o + 1 := by
  rcases log with ⟨cfg, act, segs⟩
  rcases act with _ | seg
  · rw [log_append_none_view] at h ⊢
    rcases happ : (newSegment cfg.segment.initial_offset cfg).append r with ⟨res, seg'⟩
    rw [happ] at h
    dsimp only at h
    rcases res with _ | o'
    · exact absurd h (by simp)
    · injection h with h
      subst h
      obtain ⟨ix1, _, h1, h2⟩ := segment_append_some _ _ _ _ happ
      subst h2
      simp [logNext, newSegment] at h1 ⊢
      omega
  · rcases hmax : seg.is_maxed with _ | _
    · rw [log_append_live_view cfg segs seg r hmax] at h ⊢
      rcases happ : seg.append r with ⟨res, seg'⟩
      rw [happ] at h
      dsimp only at h
      rcases res with _ | o'
      · exact absurd h (by simp)
      · injection h with h
        subst h
        obtain ⟨ix1, _, h1, h2⟩ := segment_append_some _ _ _ _ happ
        subst h2
        simp [logNext] at h1 ⊢
        omega
    · rw [log_append_maxed_view cfg segs seg r hmax] at h ⊢
      rcases happ : (newSegment seg.next_offset cfg).append r with ⟨res, seg'⟩
      rw [happ] at h
      dsimp only at h
      rcases res with _ | o'
      · exact absurd h (by simp)
      · injection h with h
        subst h
        obtain ⟨ix1, _, h1, h2⟩ := segment_append_some _ _ _ _ happ
        subst h2
        simp [logNext, newSegment] at h1 ⊢
        omega

/-- A failed `Log.append` leaves `logNext` unchanged. -/
theorem log_append_none_next (log : Log) (r : Record)
    (h : (Log.append log r).1 = none) :
    logNext (Log.append log r).2 = logNext log := by
  rcases log with ⟨cfg, act, segs⟩
  rcases act with _ | seg
  · rw [log_append_none_view] at h ⊢
    rcases happ : (newSegment cfg.segment.initial_offset cfg).append r with ⟨res, seg'⟩
    rw [happ] at h
    dsimp only at h
    rcases res with _ | o'
    · have h2 := segment_append_none _ _ _ happ
      subst h2
      simp [logNext, newSegment]
    · exact absurd h (by simp)
  · rcases hmax : seg.is_maxed with _ | _
    · rw [log_append_live_view cfg segs seg r hmax] at h ⊢
      rcases happ : seg.append r with ⟨res, seg'⟩
      rw [happ] at h
      dsimp only at h
      rcases res with _ | o'
      · have h2 := segment_append_none _ _ _ happ
        subst h2
        simp [logNext]
      · exact absurd h (by simp)
    · rw [log_append_maxed_view cfg segs seg r hmax] at h ⊢
      rcases happ : (newSegment seg.next_offset cfg).append r with ⟨res, seg'⟩
      rw [happ] at h
      dsimp only at h
      rcases res with _ | o'
      · have h2 := segment_append_none _ _ _ happ
        subst h2
        simp [logNext, newSegment]
      · exact absurd h (by simp)

/-- The offsets returned by a sequence of `Log.append` calls, in call
order (failed appends return no offset). -/
def appendOffsets : Log → List Record → List Nat
  | _, [] => []
  | log, r :: rs =>
    match Log.append log r with
    | (some o, log') => o :: appendOffsets log' rs
    | (none, log') => appendOffsets log' rs

theorem appendOffsets_lower (rs : List Record) (log : Log) :
    ∀ o ∈ appendOffsets log rs, logNext log ≤ o := by
  induction rs generalizing log with
  | nil =>
    intro o ho
    simp [appendOffsets] at ho
  | cons r rs ih =>
    intro o ho
    unfold appendOffsets at ho
    rcases happ : Log.append log r with ⟨res, log'⟩
    have hfst : (Log.append log r).1 = res := by rw [happ]
    have hsnd : (Log.append log r).2 = log' := by rw [happ]
    rw [happ] at ho
    rcases res with _ | o'
    · have hnext := log_append_none_next log r hfst
      rw [hsnd] at hnext
      have := ih log' o ho
      omega
    · have hoff := log_append_offset log r o' hfst
      rw [hsnd] at hoff
      simp only [List.mem_cons] at ho
      rcases ho with ho | ho
      · omega
      · have := ih log' o ho
        omega

/-! ### Invariants of reachable logs -/

/-- Per-segment well-formedness: the store's `size` tracks its bytes;
`next_offset` is at least `base_offset`; the index holds exactly one
12-byte entry per assigned offset; the index fits its map; and the map
is small enough that relative offsets fit in a `u32` (spec §3: the
relative offset "fits in 32 bits per segment"). -/
def SegInv (seg : Segment) : Prop :=
  StoreInv seg.store ∧
  seg.base_offset ≤ seg.next_offset ∧
  seg.index.size = (seg.next_offset - seg.base_offset) * ENT_WIDTH ∧
  seg.index.size ≤ seg.index.mmap.length ∧
  seg.index.mmap.length ≤ ENT_WIDTH * 2 ^ 32

/-- Log well-formedness: the configured index size keeps relative
offsets in `u32` range; the active segment is well-formed and every
closed segment ends at or before the active segment's base (segments'
ranges are disjoint from the active one); with no active segment the
log is freshly opened and has no segments. -/
def LogInv (log : Log) : Prop :=
  log.config.segment.max_index_bytes ≤ ENT_WIDTH * 2 ^ 32 ∧
  match log.active_segment with
  | some a => SegInv a ∧ ∀ seg ∈ log.segments, seg.next_offset ≤ a.base_offset
  | none => log.segments = []

theorem segInv_newSegment (base : Nat) (cfg : Config)
    (h : cfg.segment.max_index_bytes ≤ ENT_WIDTH * 2 ^ 32) :
    SegInv (newSegment base cfg) := by
  refine ⟨rfl, Nat.le_refl _, ?_, ?_, ?_⟩
  · simp [newSegment, Index.emptyIndex]
  · simp [newSegment, Index.emptyIndex]
  · simpa [newSegment, Index.emptyIndex] using h

/-- `Index.read` at a nonnegative in-range entry number. -/
theorem index_read_entry (ix : Index) (k : Nat) (hk : k < 2 ^ 32)
    (hsz : ix.size ≠ 0) (hbound : k * ENT_WIDTH + ENT_WIDTH ≤ ix.size) :
    ix.read (k : Int) = some (beToNat (listSlice ix.mmap (k * ENT_WIDTH) 4),
                              beToNat (listSlice ix.mmap (k * ENT_WIDTH + 4) 8)) := by
  have hE : ENT_WIDTH = 12 := rfl
  unfold Index.read
  rw [if_neg hsz]
  have h1 : ¬ ((k : Nat) : Int) = -1 := by omega
  have h2 : ¬ ((k : Nat) : Int) < 0 := by omega
  simp only [if_neg h1, if_neg h2, Int.toNat_natCast]
  rw [Nat.mod_eq_of_lt hk]
  rw [if_neg (by omega)]

/-- Segment-level roundtrip: a successful `Segment.append` of `r` is
immediately readable at the assigned offset and returns `r.value`. -/
theorem segment_append_read (a : Segment) (r : Record) (o : Nat) (seg' : Segment)
    (hinv : SegInv a)
    (hbound : a.store.size + r.value.length + 24 < 2 ^ 64)
    (h : a.append r = (some o, seg')) :
    seg'.read o = some ⟨r.value, o % 2 ^ 64⟩ ∧
    o = a.next_offset ∧ seg'.next_offset = o + 1 ∧ seg'.base_offset = a.base_offset := by
  have hE : ENT_WIDTH = 12 := rfl
  obtain ⟨hstore, hbn, hsize, hsle, hmb⟩ := hinv
  obtain ⟨ix1, hw, ho, hseg'⟩ := segment_append_some a r o seg' h
  subst ho
  subst hseg'
  obtain ⟨hle, hsz1, hml, hsl4, hsl8⟩ := index_write_some _ _ _ _ hw
  rw [hE] at hsize hmb hle hsz1
  set bytes := encodeRecord { r with offset := a.next_offset } with hbytes
  have hblen : bytes.length = r.value.length + 16 := encodeRecord_length _
  have hpos : (a.store.append bytes).1.2 = a.store.size := by
    rw [store_append_pos]
  -- the relative offset of the appended entry fits in 32 bits
  have hrel : a.next_offset - a.base_offset < 2 ^ 32 := by omega
  have hrelmod : (a.next_offset - a.base_offset) % 2 ^ 32 = a.next_offset - a.base_offset :=
    Nat.mod_eq_of_lt hrel
  constructor
  · unfold Segment.read
    dsimp only
    rw [if_neg (by omega)]
    have hread := index_read_entry ix1 (a.next_offset + 1 - a.base_offset - 1)
      (by omega) (by omega) (by simp only [hE]; omega)
    have hk : a.next_offset + 1 - a.base_offset - 1 = a.next_offset - a.base_offset := by
      omega
    rw [hk, hE] at hread
    rw [hread]
    dsimp only
    rw [show (a.next_offset - a.base_offset) * 12 + 4 = a.index.size + 4 by omega]
    rw [hsl8, beToNat_u64BE, hpos]
    have hspos : a.store.size % 2 ^ 64 = a.store.size := Nat.mod_eq_of_lt (by omega)
    rw [hspos]
    have hrd := store_read_appended a.store bytes hstore (by omega)
    rw [hrd]
    have hdec := decode_encodeRecord { r with offset := a.next_offset } (by simp; omega)
    simpa using hdec
  · exact ⟨rfl, rfl, rfl⟩

/-- The active segment's store size (0 when no segment exists yet);
used to bound the store position against `u64` overflow. -/
def activeStoreSize (log : Log) : Nat :=
  match log.active_segment with
  | some seg => seg.store.size
  | none => 0

theorem log_read_of_active (cfg : Config) (segs : List Segment) (a : Segment) (o : Nat)
    (hskip : ∀ s ∈ segs, s.next_offset ≤ o)
    (hlo : a.base_offset ≤ o) (hhi : o < a.next_offset) :
    Log.read ⟨cfg, some a, segs⟩ o = a.read o := by
  unfold Log.read
  have hfind : segs.find? (fun s => decide (s.base_offset ≤ o ∧ o < s.next_offset)) = none := by
    rw [List.find?_eq_none]
    intro s hs
    have hn := hskip s hs
    simp only [decide_eq_true_eq]
    intro hcontra
    obtain ⟨_, hc2⟩ := hcontra
    omega
  rw [hfind]
  dsimp only
  rw [if_pos ⟨hlo, hhi⟩]

/-- C7: round-trip law — on a well-formed log (`LogInv`, satisfied by a
freshly opened log and preserved by the operations), a successful
`Log.append` followed by `Log.read` at the returned offset yields a
record whose value equals the appended value, across segment rotation
as well.  The bound keeps the store position and payload length inside
`u64`, as they are in the Rust code. -/
theorem log_append_read_roundtrip (log : Log) (r : Record) (o : Nat)
    (hinv : LogInv log)
    (hbound : activeStoreSize log + r.value.length + 24 < 2 ^ 64)
    (h : (Log.append log r).1 = some o) :
    ∃ rec, Log.read (Log.append log r).2 o = some rec ∧ rec.value = r.value := by
  rcases log with ⟨cfg, act, segs⟩
  rcases act with _ | seg
  · obtain ⟨hcfg, hsegs⟩ := hinv
    subst hsegs
    rw [log_append_none_view] at h ⊢
    rcases happ : (newSegment cfg.segment.initial_offset cfg).append r with ⟨res, seg'⟩
    dsimp only at h ⊢
    rcases res with _ | o'
    · rw [happ] at h
      exact absurd h (by simp)
    · rw [happ] at h
      dsimp only at h
      injection h with h
      subst h
      have hainv : SegInv (newSegment cfg.segment.initial_offset cfg) :=
        segInv_newSegment _ _ hcfg
      have hbnd : (newSegment cfg.segment.initial_offset cfg).store.size
          + r.value.length + 24 < 2 ^ 64 := by
        simp only [newSegment, Store.emptyStore]
        simp only [activeStoreSize] at hbound
        omega
      obtain ⟨hrd, ho, hn', hb'⟩ := segment_append_read _ r o' seg' hainv hbnd happ
      refine ⟨⟨r.value, o' % 2 ^ 64⟩, ?_, rfl⟩
      have hbase : (newSegment cfg.segment.initial_offset cfg).base_offset
          = (newSegment cfg.segment.initial_offset cfg).next_offset := rfl
      rw [log_read_of_active cfg [] seg' o' (by intro s hs; simp at hs)
        (by omega) (by omega)]
      exact hrd
  · obtain ⟨hcfg, hseginv, hsegsle⟩ := hinv
    rcases hmax : seg.is_maxed with _ | _
    · rw [log_append_live_view cfg segs seg r hmax] at h ⊢
      rcases happ : seg.append r with ⟨res, seg'⟩
      dsimp only at h ⊢
      rcases res with _ | o'
      · rw [happ] at h
        exact absurd h (by simp)
      · rw [happ] at h
        dsimp only at h
        injection h with h
        subst h
        have hbnd : seg.store.size + r.value.length + 24 < 2 ^ 64 := by
          simp only [activeStoreSize] at hbound
          omega
        obtain ⟨hrd, ho, hn', hb'⟩ := segment_append_read seg r o' seg' hseginv hbnd happ
        refine ⟨⟨r.value, o' % 2 ^ 64⟩, ?_, rfl⟩
        have hbn : seg.base_offset ≤ seg.next_offset := hseginv.2.1
        rw [log_read_of_active cfg segs seg' o'
          (by intro s hs; have := hsegsle s hs; omega) (by omega) (by omega)]
        exact hrd
    · rw [log_append_maxed_view cfg segs seg r hmax] at h ⊢
      rcases happ : (newSegment seg.next_offset cfg).append r with ⟨res, seg'⟩
      dsimp only at h ⊢
      rcases res with _ | o'
      · rw [happ] at h
        exact absurd h (by simp)
      · rw [happ] at h
        dsimp only at h
        injection h with h
        subst h
        have hainv : SegInv (newSegment seg.next_offset cfg) := segInv_newSegment _ _ hcfg
        have hbnd : (newSegment seg.next_offset cfg).store.size
            + r.value.length + 24 < 2 ^ 64 := by
          simp only [newSegment, Store.emptyStore]
          simp only [activeStoreSize] at hbound
          omega
        obtain ⟨hrd, ho, hn', hb'⟩ := segment_append_read _ r o' seg' hainv hbnd happ
        refine ⟨⟨r.value, o' % 2 ^ 64⟩, ?_, rfl⟩
        have hbase : (newSegment seg.next_offset cfg).base_offset
            = (newSegment seg.next_offset cfg).next_offset := rfl
        have hbn : seg.base_offset ≤ seg.next_offset := hseginv.2.1
        have hfreshb : (newSegment seg.next_offset cfg).base_offset = seg.next_offset := rfl
        rw [log_read_of_active cfg (segs ++ [seg]) seg' o' ?_ (by omega) (by omega)]
        · exact hrd
        · intro s hs
          rw [List.mem_append] at hs
          rcases hs with hs | hs
          · have := hsegsle s hs
            omega
          · rw [List.mem_singleton] at hs
            subst hs
            omega

/-! ### Cluster state (`src/cluster/state.rs`)

`NodeInfo.addr : SocketAddr` and `last_heartbeat : Option<Instant>` are
operating-system types that none of the modelled operations inspect;
they are omitted from the embedding.  The `HashMap<String, NodeInfo>`
is modelled as an association list in iteration order. -/

inductive NodeRole where
  | Follower
  | Candidate
  | Leader
deriving Repr, DecidableEq

structure NodeInfo where
  id : String
  role : NodeRole
  term : Nat
  is_alive : Bool
deriving Repr, DecidableEq

structure ClusterState where
  current_term : Nat
  voted_for : Option String
  leader_id : Option String
  nodes : List (String × NodeInfo)
  commit_index : Nat
  last_applied : Nat
deriving Repr, DecidableEq

/-- `ClusterStateManager::get_alive_nodes`. -/
def get_alive_nodes (st : ClusterState) : List String :=
  (st.nodes.filter (fun p => p.2.is_alive)).map (fun p => p.1)

/-- `ClusterStateManager::get_quorum_size`: `⌊alive/2⌋ + 1`. -/
def get_quorum_size (st : ClusterState) : Nat :=
  (get_alive_nodes st).length / 2 + 1

/-- `ClusterStateManager::is_leader`: `get_leader() == Some(node_id)`. -/
def is_leader (selfId : String) (st : ClusterState) : Bool :=
  st.leader_id == some selfId

/-! ### Election (`src/cluster/election.rs`) -/

structure ElectionRequest where
  term : Nat
  candidate_id : String
  last_log_index : Nat
  last_log_term : Nat
deriving Repr, DecidableEq

structure ElectionResponse where
  term : Nat
  vote_granted : Bool
deriving Repr, DecidableEq

structure LogEntry where
  term : Nat
  index : Nat
  command : List Nat
deriving Repr, DecidableEq

structure HeartbeatRequest where
  term : Nat
  leader_id : String
  prev_log_index : Nat
  prev_log_term : Nat
  entries : List LogEntry
  leader_commit : Nat
deriving Repr, DecidableEq

structure HeartbeatResponse where
  term : Nat
  success : Bool
  match_index : Nat
deriving Repr, DecidableEq

/-- `LeaderElection::handle_vote_request`.  The handler clones the
state, mutates the clone, and persists `current_term` / `voted_for` /
`leader_id` through `update_state` only in the granting branch; the
first component of the result is the node's persisted state after the
call. -/
def handle_vote_request (st : ClusterState) (req : ElectionRequest) :
    ClusterState × ElectionResponse :=
  if req.term < st.current_term then
    (st, ⟨st.current_term, false⟩)
  else
    let st1 := if st.current_term < req.term then
        { st with current_term := req.term, voted_for := none, leader_id := none }
      else st
    if st1.voted_for = none ∨ st1.voted_for = some req.candidate_id then
      let st2 := { st1 with voted_for := some req.candidate_id }
      (st2, ⟨st2.current_term, true⟩)
    else
      (st, ⟨st1.current_term, false⟩)

/-- `LeaderElection::handle_heartbeat`: reject stale terms, adopt a
greater term (clearing `voted_for`), record the sender as leader, and
persist. -/
def handle_heartbeat (st : ClusterState) (hb : HeartbeatRequest) :
    ClusterState × HeartbeatResponse :=
  if hb.term < st.current_term then
    (st, ⟨st.current_term, false, 0⟩)
  else
    let st1 := if st.current_term < hb.term then
        { st with current_term := hb.term, voted_for := none }
      else st
    let st2 := { st1 with leader_id := some hb.leader_id }
    (st2, ⟨st2.current_term, true, st2.last_applied⟩)

/-- The step-down preamble of spec §9: adopt term `t`, clear `voted_for`
and `leader_id`. -/
def observe_term (st : ClusterState) (t : Nat) : ClusterState :=
  { st with current_term := t, voted_for := none, leader_id := none }

/-! ### Replication (`src/cluster/replication.rs`) -/

structure ReplicationRequest where
  term : Nat
  leader_id : String
  prev_log_index : Nat
  prev_log_term : Nat
  entries : List LogEntry
  leader_commit : Nat
deriving Repr, DecidableEq

structure ReplicationResponse where
  term : Nat
  success : Bool
  match_index : Nat
deriving Repr, DecidableEq

/-- The follower-side state touched by `handle_replication_request`:
the node's cluster state and its local log. -/
structure ReplState where
  cs : ClusterState
  log : Log

/-- The entry-application loop of `handle_replication_request`: build a
`Record` from each entry (`value := command`, `offset := index`) and
append it to the local log; stop with `false` on the first failure. -/
def applyEntries : Log → List LogEntry → Bool × Log
  | log, [] => (true, log)
  | log, e :: es =>
    match Log.append log { value := e.command, offset := e.index } with
    | (some _, log') => applyEntries log' es
    | (none, log') => (false, log')

/-- `ReplicationManager::handle_replication_request`. -/
def handle_replication_request (w : ReplState) (req : ReplicationRequest) :
    ReplicationResponse × ReplState :=
  let st := w.cs
  if req.term < st.current_term then
    (⟨st.current_term, false, 0⟩, w)
  else
    match applyEntries w.log req.entries with
    | (false, log') => (⟨st.current_term, false, 0⟩, { w with log := log' })
    | (true, log') =>
      let cs' := if st.commit_index < req.leader_commit then
          { w.cs with commit_index := min req.leader_commit w.cs.last_applied }
        else w.cs
      (⟨st.current_term, true, req.prev_log_index + req.entries.length⟩,
       ⟨cs', log'⟩)

def insertSorted (x : Nat) : List Nat → List Nat
  | [] => [x]
  | y :: ys => if x ≤ y then x :: y :: ys else y :: insertSorted x ys

/-- `Vec::sort` (ascending) on the collected `match_index` values. -/
def sortNat (l : List Nat) : List Nat := l.foldr insertSorted []

/-- `ReplicationManager::update_commit_index`: sort the `match_index`
values; when at least `quorum − 1` of them exist, set `commit_index`
unconditionally to `indices[indices.len() − quorum_size + 1]`.  The
`usize` subtraction underflows (and the indexing panics) when
`indices.len() < quorum_size` or `quorum_size ≤ 1`; panics are
modelled as `none`. -/
def update_commit_index (matchVals : List Nat) (st : ClusterState) : Option ClusterState :=
  let indices := sortNat matchVals
  let quorum := get_quorum_size st
  if quorum - 1 ≤ indices.length then
    if indices.length < quorum then none
    else
      match indices.get? (indices.length - quorum + 1) with
      | none => none
      | some m => some { st with commit_index := m }
  else some st

/-- The leader-side state touched by `append_entry`: cluster state, the
per-peer `next_index` / `match_index` maps, and the local log. -/
structure LeaderState where
  cs : ClusterState
  next_index : List (String × Nat)
  match_index : List (String × Nat)
  log : Log

def assocGet (m : List (String × Nat)) (k : String) : Option Nat :=
  (m.find? (fun p => p.1 == k)).map (fun p => p.2)

/-- `HashMap::insert`: replace the binding if present, else add it. -/
def assocPut : List (String × Nat) → String → Nat → List (String × Nat)
  | [], k, v => [(k, v)]
  | (k', v') :: rest, k, v =>
    if k' == k then (k, v) :: rest else (k', v') :: assocPut rest k v

/-- `ReplicationManager::send_replication_request` (the in-process
simulation in the source: success iff `request.term >= node.term`). -/
def send_replication_request (cs : ClusterState) (nodeId : String)
    (req : ReplicationRequest) : Option ReplicationResponse :=
  match (cs.nodes.find? (fun p => p.1 == nodeId)).map (fun p => p.2) with
  | none => none
  | some node =>
    if node.term ≤ req.term then
      some ⟨req.term, true, req.prev_log_index + req.entries.length⟩
    else
      some ⟨node.term, false, 0⟩

/-- `ReplicationManager::replicate_to_node` (`saturating_sub` is `Nat`
subtraction). -/
def replicate_to_node (selfId : String) (w : LeaderState) (nodeId : String)
    (entries : List LogEntry) : Bool × LeaderState :=
  let next_idx := (assocGet w.next_index nodeId).getD 0
  let req : ReplicationRequest :=
    { term := w.cs.current_term, leader_id := selfId,
      prev_log_index := next_idx - 1, prev_log_term := 0,
      entries := entries, leader_commit := w.cs.commit_index }
  match send_replication_request w.cs nodeId req with
  | none => (false, w)
  | some resp =>
    if entries.isEmpty then
      if resp.success then
        (true, { w with match_index := assocPut w.match_index nodeId resp.match_index })
      else
        (false, { w with next_index := assocPut w.next_index nodeId (next_idx - 1) })
    else
      if resp.success then
        (true, { w with
          next_index := assocPut w.next_index nodeId (next_idx + entries.length),
          match_index := assocPut w.match_index nodeId resp.match_index })
      else
        (false, { w with next_index := assocPut w.next_index nodeId (next_idx - 1) })

/-- The per-peer loop in `replicate_to_followers`, counting `Ok(true)`
replies and skipping the leader itself. -/
def replicateLoop (selfId : String) (entries : List LogEntry) :
    List String → LeaderState → Nat → Nat × LeaderState
  | [], w, count => (count, w)
  | nid :: rest, w, count =>
    if nid == selfId then replicateLoop selfId entries rest w count
    else
      match replicate_to_node selfId w nid entries with
      | (true, w') => replicateLoop selfId entries rest w' (count + 1)
      | (false, w') => replicateLoop selfId entries rest w' count

/-- `ReplicationManager::replicate_to_followers`: requires leadership,
counts successful replies over the alive peers, compares against
`quorum − 1`, updates the commit index on success, and returns whether
a quorum was reached.  `none` models `Err` / a panic inside
`update_commit_index`. -/
def replicate_to_followers (selfId : String) (w : LeaderState)
    (entries : List LogEntry) : Option (Bool × LeaderState) :=
  if is_leader selfId w.cs = false then none
  else
    let res := replicateLoop selfId entries (get_alive_nodes w.cs) w 0
    let w1 := res.2
    if get_quorum_size w1.cs - 1 ≤ res.1 then
      match update_commit_index (w1.match_index.map (fun p => p.2)) w1.cs with
      | none => none
      | some cs' => some (true, { w1 with cs := cs' })
    else some (false, w1)

/-- `ReplicationManager::append_entry`: requires leadership; forms the
entry `{term := current_term, index := last_applied + 1, command}`;
appends the corresponding record to the local log; advances
`last_applied`; attempts quorum replication (`if let Ok(true) = … `,
result ignored); returns the offset assigned by `Log.append`. -/
def append_entry (selfId : String) (w : LeaderState) (command : List Nat) :
    Option Nat × LeaderState :=
  if is_leader selfId w.cs = false then (none, w)
  else
    let log_index := w.cs.last_applied + 1
    let entry : LogEntry :=
      { term := w.cs.current_term, index := log_index, command := command }
    let res := Log.append w.log { value := command, offset := log_index }
    match res.1 with
    | none => (none, { w with log := res.2 })
    | some offset =>
      let w1 : LeaderState :=
        { w with log := res.2, cs := { w.cs with last_applied := log_index } }
      match replicate_to_followers selfId w1 [entry] with
      | none => (none, w1)
      | some br => (some offset, br.2)

/-- `WalService::write` (`src/server/service.rs`): requires leadership,
then delegates to `append_entry`. -/
def service_write (selfId : String) (w : LeaderState) (data : List Nat) :
    Option Nat × LeaderState :=
  if is_leader selfId w.cs = false then (none, w)
  else append_entry selfId w data

/-! ### Concrete fixtures for witnesses and counterexamples -/

/-- A small test configuration (nonzero limits, so `new_log` keeps them;
`max_index_bytes = 36` holds three 12-byte index entries). -/
def cfgTest : Config := ⟨⟨64, 36, 0⟩⟩

/-- Three-node cluster state: `n1` is the leader at term 1; the two
followers already sit at term 5, so the simulated replication requests
are all rejected and no quorum is reached. -/
def nodesW : List (String × NodeInfo) :=
  [("n1", ⟨"n1", NodeRole.Leader, 1, true⟩),
   ("n2", ⟨"n2", NodeRole.Follower, 5, true⟩),
   ("n3", ⟨"n3", NodeRole.Follower, 5, true⟩)]

/-- Leader-side world for `append_entry`: `n1` believes it is leader,
its log is freshly opened, and no entry has been replicated. -/
def wc : LeaderState := ⟨⟨1, none, some "n1", nodesW, 0, 0⟩, [], [], newLogEmptyDir cfgTest⟩

/-! ### C10 — Store buffering / fsync policy -/

/-- C10 counterexample: appending a single 8 KiB payload to an empty
store makes `BufWriter::write_all` flush the 8-byte length prefix and
then write the payload straight to the OS file (the payload reaches the
8 KiB default capacity), so `append` returns with the whole frame in
the OS file, the buffer empty — far below the 64 KiB
`BUFFER_CAPACITY` — and no fsync: the frame was not "written only into
the user-space BufWriter" and did not "return still buffered". -/
theorem bufWrite_flush_direct (s : Store) (data : List Nat)
    (h1 : DEFAULT_BUF_CAPACITY < s.buf.length + data.length)
    (h2 : DEFAULT_BUF_CAPACITY ≤ data.length) :
    s.bufWrite data = ⟨(s.file ++ s.buf) ++ data, [], s.size, s.syncCount⟩ := by
  simp only [Store.bufWrite]
  rw [if_pos h1]
  dsimp only
  rw [if_pos h2]

theorem store_append_no_sync_eq (s : Store) (p : List Nat)
    (hno : ¬ BUFFER_CAPACITY ≤ ((s.bufWrite (u64BE p.length)).bufWrite p).buf.length) :
    (s.append p).2 = Store.mk ((s.bufWrite (u64BE p.length)).bufWrite p).file
      ((s.bufWrite (u64BE p.length)).bufWrite p).buf (s.size + (p.length + 8))
      ((s.bufWrite (u64BE p.length)).bufWrite p).syncCount := by
  simp only [Store.append]
  rw [if_neg hno]

theorem store_append_spills_below_threshold :
    (Store.emptyStore.append (List.replicate 8192 7)).2.buf = [] ∧
    (Store.emptyStore.append (List.replicate 8192 7)).2.file
      = u64BE 8192 ++ List.replicate 8192 7 ∧
    (Store.emptyStore.append (List.replicate 8192 7)).2.syncCount = 0 ∧
    (Store.emptyStore.append (List.replicate 8192 7)).2.buf.length < BUFFER_CAPACITY := by
  have hw1 : Store.emptyStore.bufWrite (u64BE 8192) = ⟨[], u64BE 8192, 0, 0⟩ := rfl
  have hc1 : DEFAULT_BUF_CAPACITY < (⟨[], u64BE 8192, 0, 0⟩ : Store).buf.length
      + (List.replicate 8192 7 : List Nat).length := by
    rw [List.length_replicate]
    decide
  have hc2 : DEFAULT_BUF_CAPACITY ≤ (List.replicate 8192 7 : List Nat).length := by
    rw [List.length_replicate]
    decide
  have hw2 := bufWrite_flush_direct ⟨[], u64BE 8192, 0, 0⟩ (List.replicate 8192 7) hc1 hc2
  have hno : ¬ BUFFER_CAPACITY ≤
      ((Store.emptyStore.bufWrite (u64BE (List.replicate 8192 7 : List Nat).length)).bufWrite
        (List.replicate 8192 7)).buf.length := by
    rw [List.length_replicate, hw1, hw2]
    decide
  have happ := store_append_no_sync_eq Store.emptyStore (List.replicate 8192 7) hno
  rw [List.length_replicate, hw1, hw2] at happ
  dsimp only at happ
  rw [happ]
  refine ⟨rfl, ?_, rfl, by decide⟩
  rw [List.nil_append]

/-- C10 amended: `Store::append` pushes the frame through the 8 KiB
`BufWriter`, which may flush bytes to the OS file mid-append (without
fsync) whenever a write would overflow its capacity; because the
buffer's length therefore never exceeds 8 KiB, the
`buffer ≥ BUFFER_CAPACITY (64 KiB)` flush-and-`sync_all` branch is
dead code and `append` never fsyncs; the logical contents
(file ++ buffer) still grow by exactly the frame; and `Store::close`
flushes the buffer but never fsyncs the file. -/
theorem store_append_never_fsyncs (s : Store) (p : List Nat)
    (hbuf : s.buf.length ≤ DEFAULT_BUF_CAPACITY) :
    (s.append p).2.syncCount = s.syncCount ∧
    (s.append p).2.buf.length ≤ DEFAULT_BUF_CAPACITY ∧
    (s.append p).2.contents = s.contents ++ u64BE p.length ++ p ∧
    s.close.buf = [] ∧ s.close.file = s.contents ∧ s.close.syncCount = s.syncCount := by
  have hb2 := bufWrite_buf_le (s.bufWrite (u64BE p.length)) p
    (bufWrite_buf_le s (u64BE p.length) hbuf)
  have hsy2 : ((s.bufWrite (u64BE p.length)).bufWrite p).syncCount = s.syncCount := by
    rw [bufWrite_sync, bufWrite_sync]
  have hdead : ¬ BUFFER_CAPACITY ≤ ((s.bufWrite (u64BE p.length)).bufWrite p).buf.length := by
    have hD : DEFAULT_BUF_CAPACITY = 8192 := rfl
    have hB : BUFFER_CAPACITY = 65536 := rfl
    omega
  refine ⟨?_, ?_, store_append_contents s p, rfl, rfl, rfl⟩
  · simp only [Store.append]
    rw [if_neg hdead]
    exact hsy2
  · simp only [Store.append]
    rw [if_neg hdead]
    exact hb2

theorem store_append_never_fsyncs_witness :
    (Store.emptyStore.append [1]).2.syncCount = Store.emptyStore.syncCount ∧
    (Store.emptyStore.append [1]).2.buf.length ≤ DEFAULT_BUF_CAPACITY ∧
    (Store.emptyStore.append [1]).2.contents
      = Store.emptyStore.contents ++ u64BE ([1] : List Nat).length ++ [1] ∧
    Store.emptyStore.close.buf = [] ∧
    Store.emptyStore.close.file = Store.emptyStore.contents ∧
    Store.emptyStore.close.syncCount = Store.emptyStore.syncCount :=
  store_append_never_fsyncs Store.emptyStore [1] (by decide)

/-! ### C9 — initial segment on open -/

/-- C9 counterexample: opening a `Log` on a directory with no segment
files leaves `active_segment = None`; there is no active segment with
`base_offset = initial_offset` immediately after `Log::new` returns. -/
theorem new_log_has_no_active_segment :
    (newLogEmptyDir cfgTest).active_segment = none := rfl

/-- C9 amended: `Log::new` on an empty directory creates no segment;
the initial segment at `config.initial_offset` is created lazily by the
first `Log.append`. -/
theorem initial_segment_created_on_first_append (c : Config) (r : Record) :
    (newLogEmptyDir c).active_segment = none ∧
    ∃ seg, ((newLogEmptyDir c).append r).2.active_segment = some seg ∧
      seg.base_offset = c.segment.initial_offset := by
  refine ⟨rfl, ((newSegment (applyDefaults c).segment.initial_offset (applyDefaults c)).append r).2,
    ?_, ?_⟩
  · show (Log.append ⟨applyDefaults c, none, []⟩ r).2.active_segment = _
    rw [log_append_none_view]
  · have hinit : (applyDefaults c).segment.initial_offset = c.segment.initial_offset := rfl
    rcases happ : (newSegment (applyDefaults c).segment.initial_offset (applyDefaults c)).append r
      with ⟨res, seg'⟩
    dsimp only
    rcases res with _ | o
    · have h2 := segment_append_none _ _ _ happ
      subst h2
      simpa [newSegment] using hinit
    · obtain ⟨ix1, _, _, h2⟩ := segment_append_some _ _ _ _ happ
      subst h2
      simpa [newSegment] using hinit

/-! ### C8 — strictly increasing offsets -/

/-- C8: over any sequence of `Log.append` calls on one log (rotation
included), each returned offset is strictly greater than every offset
returned by an earlier call. -/
theorem log_append_offsets_strictly_increasing (log : Log) (rs : List Record) :
    List.Pairwise (· < ·) (appendOffsets log rs) := by
  induction rs generalizing log with
  | nil => exact List.Pairwise.nil
  | cons r rs ih =>
    unfold appendOffsets
    rcases happ : Log.append log r with ⟨res, log'⟩
    have hfst : (Log.append log r).1 = res := by rw [happ]
    have hsnd : (Log.append log r).2 = log' := by rw [happ]
    rcases res with _ | o
    · exact ih log'
    · refine List.Pairwise.cons ?_ (ih log')
      intro x hx
      have hlow := appendOffsets_lower rs log' x hx
      have hoff := log_append_offset log r o hfst
      rw [hsnd] at hoff
      omega

/-! ### C7 — append/read round trip (witness) -/

/-- A small record for the round-trip witness. -/
def r7 : Record := ⟨[104, 105], 0⟩

theorem log_append_read_roundtrip_witness :
    ∃ rec, Log.read (Log.append (newLogEmptyDir cfgTest) r7).2 0 = some rec ∧
      rec.value = r7.value :=
  log_append_read_roundtrip (newLogEmptyDir cfgTest) r7 0
    ⟨by decide, rfl⟩ (by decide) rfl

/-! ### C5 — step-down on greater term -/

/-- C5: an inbound `VoteRequest` or `HeartbeatRequest` carrying a term
greater than `current_term` is handled exactly as if the node first ran
the step-down preamble `observe_term` (adopt the term, clear
`voted_for` and `leader_id`) and then processed the request; the
persisted state carries the new term (and, for the vote handler, a
cleared `leader_id`), regardless of the handler's outcome. -/
theorem greater_term_steps_down_first (st : ClusterState) (vr : ElectionRequest)
    (hb : HeartbeatRequest) (hv : st.current_term < vr.term)
    (hh : st.current_term < hb.term) :
    handle_vote_request st vr = handle_vote_request (observe_term st vr.term) vr ∧
    (handle_vote_request st vr).1.current_term = vr.term ∧
    (handle_vote_request st vr).1.leader_id = none ∧
    handle_heartbeat st hb = handle_heartbeat (observe_term st hb.term) hb ∧
    (handle_heartbeat st hb).1.current_term = hb.term := by
  have h1 : ¬ vr.term < st.current_term := by omega
  have h2 : ¬ vr.term < vr.term := by omega
  have h3 : ¬ hb.term < st.current_term := by omega
  have h4 : ¬ hb.term < hb.term := by omega
  refine ⟨?_, ?_, ?_, ?_, ?_⟩ <;>
    simp [handle_vote_request, handle_heartbeat, observe_term, h1, h2, h3, h4, hv, hh]

/-- Witness for `greater_term_steps_down_first` at a concrete state. -/
def stW : ClusterState := ⟨1, some "x", some "y", [], 0, 5⟩

theorem greater_term_steps_down_first_witness :
    handle_vote_request stW ⟨2, "c", 0, 0⟩
        = handle_vote_request (observe_term stW 2) ⟨2, "c", 0, 0⟩ ∧
    (handle_vote_request stW ⟨2, "c", 0, 0⟩).1.current_term = 2 ∧
    (handle_vote_request stW ⟨2, "c", 0, 0⟩).1.leader_id = none ∧
    handle_heartbeat stW ⟨3, "L", 0, 0, [], 0⟩
        = handle_heartbeat (observe_term stW 3) ⟨3, "L", 0, 0, [], 0⟩ ∧
    (handle_heartbeat stW ⟨3, "L", 0, 0, [], 0⟩).1.current_term = 3 :=
  greater_term_steps_down_first stW ⟨2, "c", 0, 0⟩ ⟨3, "L", 0, 0, [], 0⟩
    (by decide) (by decide)

/-! ### C1 — vote granting rule -/

/-- C1 counterexample: with `req.term = current_term = 1` and
`voted_for = None`, the vote is granted even though the candidate's log
(`last_log_term = 0`, `last_log_index = 0`) is strictly less up-to-date
than the receiver's log (last term 5, last index 3): the handler never
consults the log, so "grant iff voted_for permits AND candidate's log
is at least as up-to-date" fails at this input. -/
theorem vote_granted_without_log_check :
    (handle_vote_request ⟨1, none, none, [], 0, 0⟩ ⟨1, "c", 0, 0⟩).2.vote_granted = true ∧
    ¬ ((0 : Nat) > 5 ∨ ((0 : Nat) = 5 ∧ (0 : Nat) ≥ 3)) := by
  constructor
  · decide
  · decide

/-- C1 amended: for `req.term ≥ current_term` the vote is granted iff
`voted_for` — after a greater term clears it — is `None` or already the
candidate; no up-to-dateness check of the candidate's log is performed;
on grant, `voted_for` is persisted as `req.candidate_id`. -/
theorem handle_vote_request_grant_iff (st : ClusterState) (req : ElectionRequest)
    (h : st.current_term ≤ req.term) :
    ((handle_vote_request st req).2.vote_granted = true ↔
      ((if st.current_term < req.term then none else st.voted_for) = none ∨
       (if st.current_term < req.term then none else st.voted_for) = some req.candidate_id)) ∧
    ((handle_vote_request st req).2.vote_granted = true →
      (handle_vote_request st req).1.voted_for = some req.candidate_id) := by
  have h1 : ¬ req.term < st.current_term := by omega
  by_cases hgt : st.current_term < req.term
  · simp [handle_vote_request, h1, hgt]
  · simp only [handle_vote_request, if_neg h1, if_neg hgt]
    by_cases hvf : st.voted_for = none ∨ st.voted_for = some req.candidate_id
    · rw [if_pos hvf]
      simp [hvf]
    · rw [if_neg hvf]
      simp [hvf]

theorem handle_vote_request_grant_iff_witness :
    ((handle_vote_request ⟨1, none, none, [], 0, 0⟩ ⟨1, "c", 0, 0⟩).2.vote_granted = true ↔
      ((if (1 : Nat) < 1 then none else (none : Option String)) = none ∨
       (if (1 : Nat) < 1 then none else (none : Option String)) = some "c")) ∧
    ((handle_vote_request ⟨1, none, none, [], 0, 0⟩ ⟨1, "c", 0, 0⟩).2.vote_granted = true →
      (handle_vote_request ⟨1, none, none, [], 0, 0⟩ ⟨1, "c", 0, 0⟩).1.voted_for = some "c") :=
  handle_vote_request_grant_iff ⟨1, none, none, [], 0, 0⟩ ⟨1, "c", 0, 0⟩ (by decide)

/-! ### C3 — commit-index advancement -/

theorem insertSorted_length (x : Nat) (l : List Nat) :
    (insertSorted x l).length = l.length + 1 := by
  induction l with
  | nil => rfl
  | cons y ys ih =>
    unfold insertSorted
    split
    · simp
    · simp [ih]

theorem sortNat_length (l : List Nat) : (sortNat l).length = l.length := by
  induction l with
  | nil => rfl
  | cons x xs ih =>
    show (insertSorted x (sortNat xs)).length = xs.length + 1
    rw [insertSorted_length, ih]

/-- Three-node cluster state with `commit_index = 5`, used to exhibit a
decreasing commit index. -/
def st3 : ClusterState := ⟨1, none, some "n1", nodesW, 5, 5⟩

/-- C3 counterexample: with quorum 2 and sorted match indices `[1, 1]`,
`update_commit_index` sets `commit_index` to 1 although it was 5 — no
`max` with the old value, no term check; the commit index decreases. -/
theorem commit_index_can_decrease :
    ∃ st', update_commit_index [1, 1] st3 = some st' ∧
      st'.commit_index < st3.commit_index := by
  refine ⟨{ st3 with commit_index := 1 }, rfl, by decide⟩

/-- C3 amended: whenever at least `quorum` match values exist and
`quorum ≥ 2`, `update_commit_index` sets `commit_index`
unconditionally to the `(len − quorum + 1)`-th smallest match value —
with no `max` against the current commit index and no term check (so
the commit index may decrease, and the `N > commit_index`,
`log[N].term = current_term`, and quorum-count-over-`N` conditions of
the claim are not evaluated). -/
theorem update_commit_index_median (matchVals : List Nat) (st : ClusterState)
    (hq : 2 ≤ get_quorum_size st) (hlen : get_quorum_size st ≤ matchVals.length) :
    ∃ m, (sortNat matchVals).get? (matchVals.length - get_quorum_size st + 1) = some m ∧
      update_commit_index matchVals st = some { st with commit_index := m } := by
  have hsl : (sortNat matchVals).length = matchVals.length := sortNat_length _
  have hidx : matchVals.length - get_quorum_size st + 1 < (sortNat matchVals).length := by
    omega
  refine ⟨(sortNat matchVals).get ⟨_, hidx⟩, List.get?_eq_get hidx, ?_⟩
  simp only [update_commit_index]
  rw [if_pos (by omega : get_quorum_size st - 1 ≤ (sortNat matchVals).length)]
  rw [if_neg (by omega : ¬ (sortNat matchVals).length < get_quorum_size st)]
  rw [show (sortNat matchVals).length - get_quorum_size st + 1
      = matchVals.length - get_quorum_size st + 1 from by omega]
  rw [List.get?_eq_get hidx]

theorem update_commit_index_median_witness :
    ∃ m, (sortNat [1, 1]).get? ([1, 1].length - get_quorum_size st3 + 1) = some m ∧
      update_commit_index [1, 1] st3 = some { st3 with commit_index := m } :=
  update_commit_index_median [1, 1] st3 (by decide) (by decide)

/-! ### C4 — follower log-consistency check -/

/-- Follower world for `handle_replication_request`: empty log, term 0. -/
def w4 : ReplState := ⟨⟨0, none, none, [], 0, 0⟩, newLogEmptyDir cfgTest⟩

/-- A replication request whose `prev_log_index` (7) is absent from the
follower's (empty) log. -/
def req4 : ReplicationRequest := ⟨0, "L", 7, 3, [⟨0, 1, [9]⟩], 0⟩

/-- C4 counterexample: the follower's log has no entry at
`prev_log_index = 7` (reading it fails), yet the handler applies the
entry and replies `success = true` with `match_index = 8`: no
log-consistency check is performed. -/
theorem replication_succeeds_despite_missing_prev :
    Log.read w4.log 7 = none ∧
    (handle_replication_request w4 req4).1.success = true ∧
    (handle_replication_request w4 req4).1.match_index = 8 ∧
    Log.read (handle_replication_request w4 req4).2.log 0 = some ⟨[9], 0⟩ := by
  refine ⟨rfl, rfl, rfl, rfl⟩

/-- C4 amended: for `req.term ≥ current_term` the follower applies all
entries without any `prev_log_index`/`prev_log_term` consistency check;
it replies `success = false` only when a local log append fails, and
otherwise replies success with
`match_index = prev_log_index + entries.len()`. -/
theorem handle_replication_applies_without_check (w : ReplState) (req : ReplicationRequest)
    (h1 : w.cs.current_term ≤ req.term)
    (h2 : (applyEntries w.log req.entries).1 = true) :
    (handle_replication_request w req).1.success = true ∧
    (handle_replication_request w req).1.match_index
      = req.prev_log_index + req.entries.length := by
  have h1' : ¬ req.term < w.cs.current_term := by omega
  simp only [handle_replication_request, if_neg h1']
  rcases happ : applyEntries w.log req.entries with ⟨b, log'⟩
  have hb : b = true := by
    rw [happ] at h2
    exact h2
  subst hb
  exact ⟨rfl, rfl⟩

theorem handle_replication_applies_without_check_witness :
    (handle_replication_request w4 req4).1.success = true ∧
    (handle_replication_request w4 req4).1.match_index
      = req4.prev_log_index + req4.entries.length :=
  handle_replication_applies_without_check w4 req4 (by decide) rfl

/-! ### C2 — commit before acknowledging the client -/

/-- C2 counterexample: on the world `wc` both followers reject the
simluated replication (their term 5 exceeds the request term 1), so no
quorum is reached and `commit_index` stays 0 — yet `append_entry`
returns `some 0` to the client while the new entry has index
`last_applied + 1 = 1 > commit_index`. -/
theorem append_entry_acks_uncommitted_entry :
    (append_entry "n1" wc [7]).1 = some 0 ∧
    (append_entry "n1" wc [7]).2.cs.commit_index = 0 ∧
    (append_entry "n1" wc [7]).2.cs.last_applied = 1 := by
  refine ⟨rfl, rfl, rfl⟩

/-- C2 amended: `append_entry` returns the locally assigned `Log`
offset to the client whenever the local append succeeds and the
replication round completes, regardless of whether quorum replication
succeeded (`b` may be `false`); commit is not awaited. -/
theorem append_entry_returns_offset_without_quorum (selfId : String) (w : LeaderState)
    (cmd : List Nat) (o : Nat) (log' : Log) (b : Bool) (w2 : LeaderState)
    (hl : is_leader selfId w.cs = true)
    (hlog : Log.append w.log { value := cmd, offset := w.cs.last_applied + 1 }
      = (some o, log'))
    (hrep : replicate_to_followers selfId
        { cs := { w.cs with last_applied := w.cs.last_applied + 1 },
          next_index := w.next_index, match_index := w.match_index, log := log' }
        [{ term := w.cs.current_term, index := w.cs.last_applied + 1, command := cmd }]
      = some (b, w2)) :
    (append_entry selfId w cmd).1 = some o ∧
    (append_entry selfId w cmd).2 = w2 := by
  simp only [append_entry, hl]
  rw [hlog]
  dsimp only
  rw [hrep]
  exact ⟨rfl, rfl⟩

theorem append_entry_returns_offset_without_quorum_witness :
    (append_entry "n1" wc [7]).1 = some 0 :=
  (append_entry_returns_offset_without_quorum "n1" wc [7] 0 _ false _ rfl rfl rfl).1

/-! ### C6 — replication index vs. Log offset -/

/-- C6 counterexample: on the fresh leader world `wc` the entry is
formed with `index = last_applied + 1 = 1`, but `Log.append` assigns
and returns offset 0 (the log's next offset), which `append_entry`
hands to the client — the replication index and the record offset
disagree. -/
theorem offset_differs_from_entry_index :
    (append_entry "n1" wc [7]).1 = some 0 ∧
    wc.cs.last_applied + 1 = 1 ∧
    (0 : Nat) ≠ 1 := by
  refine ⟨rfl, rfl, by decide⟩

/-- C6 amended: the offset `append_entry` obtains from `Log.append`
(and returns to the client) is always the log's own next offset
`logNext`, independent of the entry index `last_applied + 1` that is
stamped into the replicated entry; the two agree only when
`logNext w.log = w.cs.last_applied + 1`, which does not hold in
general (e.g. it fails on a fresh leader). -/
theorem append_entry_offset_is_log_next (selfId : String) (w : LeaderState)
    (cmd : List Nat) (o : Nat)
    (ho : (append_entry selfId w cmd).1 = some o) :
    o = logNext w.log := by
  unfold append_entry at ho
  by_cases hl : is_leader selfId w.cs = false
  · rw [if_pos hl] at ho
    exact absurd ho (by simp)
  · rw [if_neg hl] at ho
    dsimp only at ho
    rcases hlog : Log.append w.log { value := cmd, offset := w.cs.last_applied + 1 }
      with ⟨res, log'⟩
    have hfst : (Log.append w.log { value := cmd, offset := w.cs.last_applied + 1 }).1
        = res := by rw [hlog]
    rw [hlog] at ho
    dsimp only at ho
    rcases res with _ | o'
    · exact absurd ho (by simp)
    · rcases hrep : replicate_to_followers selfId
          { cs := { w.cs with last_applied := w.cs.last_applied + 1 },
            next_index := w.next_index, match_index := w.match_index, log := log' }
          [{ term := w.cs.current_term, index := w.cs.last_applied + 1, command := cmd }]
        with _ | br
      · rw [hrep] at ho
        exact absurd ho (by simp)
      · rw [hrep] at ho
        dsimp only at ho
        injection ho with ho
        subst ho
        exact (log_append_offset w.log _ o' hfst).1

theorem append_entry_offset_is_log_next_witness :
    (0 : Nat) = logNext wc.log :=
  append_entry_offset_is_log_next "n1" wc [7] 0 rfl

end Walrus
